import Mathlib

/-!
# Stellaris Wedding Swap: the ceremony flow of `src/index.jsx`

A shallow embedding of the React component `StellarisWeddingSwap`, of the
`TokenPicker` it renders and of the animation bindings of `GirlSketch`.

* The five `useState` cells are the record `Ceremony`.
* `setTimeout` / `clearTimeout` act on an explicit list of pending timers, each
  with the handle `setTimeout` returned, its delay in milliseconds and its
  callback.  The two `useEffect` hooks (both with dependency list `[stage]`)
  are run by `commit` after every state update that changed `stage`: first the
  cleanups returned by the previous run, then the effect bodies.
* A user event reaches a handler only through a control that is in the page.
  The four panels sit in `<AnimatePresence mode="wait">` (line 111), each
  guarded by `stage === "..."` and each with an `exit` animation of 0.4 s: the
  panel of the current stage is mounted, and the panel that a change of stage
  has just replaced stays in the page, with the props of its last render and
  with its buttons live, until its exit animation ends.  `Machine.exiting`
  records that panel.  A click lands on the panel of the current stage when
  that panel hosts the control (the user clicks once it has appeared), and
  otherwise on the exiting panel, if it hosts the control.  A `TokenPicker`
  button with `disabled` set does not call `onPick`.
* A timer fires only while it is pending.  Every change of stage runs both
  effect cleanups, so a pending timer was armed no earlier than the last change
  of stage, which is also when the last exit animation began; the delays (900,
  1100 and 4000 ms) exceed the 400 ms of an exit, so when a timer fires no
  panel is still exiting.  `step` clears `exiting` on a timer whose delay
  exceeds `exitMs`.
* Numeric literals of the animation targets (`1.08`, `-140`, ...) are read as
  the rational numbers they spell.
-/

namespace StellarisSwap

/-! ## Token catalog -/

/-- Token: one entry of the `TOKENS` array. -/
structure Token where
  symbol : String
  label : String
  color : String
deriving DecidableEq, Repr

/-- The catalog `TOKENS` (index.jsx, lines 19-24). -/
def TOKENS : List Token :=
  [ { symbol := "BTC", label := "BTC", color := "#F2A900" },
    { symbol := "APT", label := "APT", color := "#1E90FF" },
    { symbol := "ETH", label := "ETH", color := "#3C3C3D" },
    { symbol := "USDC", label := "USDC", color := "#2775CA" } ]

/-- The symbols of the catalog, in catalog order. -/
def catalogSymbols : List String := TOKENS.map (fun t => t.symbol)

/-! ## Stages and the ceremony state -/

/-- Stage: the six values listed in the comment on line 26. -/
inductive Stage where
  | connectWallet
  | askGive
  | leftRetract
  | offerReceive
  | rightPresent
  | complete
deriving DecidableEq, Repr

/-- The five `useState` cells of `StellarisWeddingSwap` (lines 29-33). -/
structure Ceremony where
  stage : Stage
  userGives : Option String
  userGets : Option String
  walletConnected : Bool
  rightCoinVisible : Bool
deriving DecidableEq, Repr

/-- The values the `useState` calls are given at mount. -/
def Ceremony.initial : Ceremony :=
  { stage := Stage.connectWallet, userGives := none, userGets := none,
    walletConnected := false, rightCoinVisible := true }

def setStage (s : Stage) (c : Ceremony) : Ceremony := { c with stage := s }

def setUserGives (v : Option String) (c : Ceremony) : Ceremony := { c with userGives := v }

def setUserGets (v : Option String) (c : Ceremony) : Ceremony := { c with userGets := v }

def setWalletConnected (b : Bool) (c : Ceremony) : Ceremony := { c with walletConnected := b }

def setRightCoinVisible (b : Bool) (c : Ceremony) : Ceremony := { c with rightCoinVisible := b }

/-- The handler `reset` (lines 58-64): five setter calls in source order. -/
def reset (c : Ceremony) : Ceremony :=
  setRightCoinVisible true
    (setWalletConnected false
      (setUserGets none
        (setUserGives none
          (setStage Stage.connectWallet c))))

/-- The handler `connectWallet` (lines 66-70). -/
def connectWallet (c : Ceremony) : Ceremony :=
  setStage Stage.askGive (setWalletConnected true c)

/-- The `onPick` closure of the give panel (lines 152-155). -/
def onPickGive (sym : String) (c : Ceremony) : Ceremony :=
  setStage Stage.leftRetract (setUserGives (some sym) c)

/-- The `onPick` closure of the receive panel (lines 175-178). -/
def onPickReceive (sym : String) (c : Ceremony) : Ceremony :=
  setStage Stage.rightPresent (setUserGets (some sym) c)

/-! ## TokenPicker -/

/-- What `TokenPicker` renders per token: the key / argument of `onPick` and
the `disabled` attribute. -/
structure Button where
  symbol : String
  disabled : Bool
deriving DecidableEq, Repr

/-- The component `TokenPicker` (lines 237-269): one button per token, in order,
with `disabled = disabledSymbols.includes(t.symbol)`. -/
def TokenPicker (tokens : List Token) (disabledSymbols : List String) : List Button :=
  tokens.map (fun t => { symbol := t.symbol, disabled := disabledSymbols.contains t.symbol })

/-- The prop expression `x ? [x] : []` (lines 156 and 179); the empty string is
falsy in JavaScript, like `null`. -/
def disabledSymbolsFor : Option String → List String
  | none => []
  | some s => if s = "" then [] else [s]

/-- The symbols of the buttons left enabled, in rendering order. -/
def enabledSymbols (buttons : List Button) : List String :=
  (buttons.filter (fun b => !b.disabled)).map (fun b => b.symbol)

/-- The symbols of the buttons that are disabled, in rendering order. -/
def disabledButtons (buttons : List Button) : List String :=
  (buttons.filter (fun b => b.disabled)).map (fun b => b.symbol)

/-- A click on the button of `sym` reaches `onPick` iff such a button is
rendered and it is not disabled. -/
def clickable (buttons : List Button) (sym : String) : Bool :=
  buttons.any (fun b => b.symbol == sym && !b.disabled)

/-! ## Panels -/

/-- A panel inside `AnimatePresence` (lines 111-210) with the props that
matter for its controls: the `disabledSymbols` of its `TokenPicker`. -/
inductive Panel where
  | connect
  | give (disabledSymbols : List String)
  | receive (disabledSymbols : List String)
  | complete
deriving DecidableEq, Repr

/-- The panel the JSX renders for the current state (lines 112, 138, 161 and
184); stages leftRetract and rightPresent render none. -/
def panelOf (c : Ceremony) : Option Panel :=
  match c.stage with
  | Stage.connectWallet => some Panel.connect
  | Stage.askGive => some (Panel.give (disabledSymbolsFor c.userGets))
  | Stage.leftRetract => none
  | Stage.offerReceive => some (Panel.receive (disabledSymbolsFor c.userGives))
  | Stage.rightPresent => none
  | Stage.complete => some Panel.complete

/-- Duration of a panel's `exit` animation in milliseconds (`duration: 0.4`). -/
def exitMs : Nat := 400

/-! ## Timers and effects -/

/-- The two shapes of timer callback in the source. -/
inductive Callback where
  | stageTo (s : Stage)
  | coinVisible (b : Bool)
deriving DecidableEq, Repr

/-- A pending `setTimeout`. -/
structure Timer where
  handle : Nat
  delay : Nat
  callback : Callback
deriving DecidableEq, Repr

/-- The component together with the browser's pending timers, the cleanup
closures React keeps for the two effects (each closure clears one handle) and
the panel that is still in the page while its exit animation runs. -/
structure Machine where
  ui : Ceremony
  timers : List Timer
  nextHandle : Nat
  stageCleanup : Option Nat
  fadeCleanup : Option Nat
  exiting : Option Panel
deriving DecidableEq, Repr

/-- The call `setTimeout(cb, delay)`: returns the new handle. -/
def setTimeout (cb : Callback) (delay : Nat) (m : Machine) : Nat × Machine :=
  (m.nextHandle,
    { m with timers := m.timers ++ [{ handle := m.nextHandle, delay := delay, callback := cb }],
             nextHandle := m.nextHandle + 1 })

/-- The call `clearTimeout(h)`. -/
def clearTimeout (h : Nat) (m : Machine) : Machine :=
  { m with timers := m.timers.filter (fun t => t.handle != h) }

/-- Body of the stage controller effect (lines 36-45). -/
def stageControllerEffect (m : Machine) : Machine :=
  if m.ui.stage = Stage.leftRetract then
    let r := setTimeout (Callback.stageTo Stage.offerReceive) 900 m
    { r.2 with stageCleanup := some r.1 }
  else if m.ui.stage = Stage.rightPresent then
    let r := setTimeout (Callback.stageTo Stage.complete) 1100 m
    { r.2 with stageCleanup := some r.1 }
  else
    { m with stageCleanup := none }

/-- Body of the right coin auto fade effect (lines 48-56). -/
def rightCoinFadeEffect (m : Machine) : Machine :=
  if m.ui.stage = Stage.offerReceive then
    let m1 := { m with ui := setRightCoinVisible true m.ui }
    let r := setTimeout (Callback.coinVisible false) 4000 m1
    { r.2 with fadeCleanup := some r.1 }
  else
    { m with fadeCleanup := none }

/-- Run the cleanup closure an effect returned, if it returned one. -/
def runCleanup : Option Nat → Machine → Machine
  | none, m => m
  | some h, m => clearTimeout h m

/-- What React does after a state update: both effects depend on `[stage]`
only, so when `stage` differs from its value at the previous render the two
cleanups run and then the two effect bodies; otherwise nothing runs. -/
def commit (prevStage : Stage) (m : Machine) : Machine :=
  if m.ui.stage = prevStage then m
  else
    let m1 := runCleanup m.stageCleanup m
    let m2 := runCleanup m1.fadeCleanup m1
    rightCoinFadeEffect (stageControllerEffect m2)

/-- What a timer callback does to the state cells. -/
def Callback.apply : Callback → Ceremony → Ceremony
  | Callback.stageTo s, c => setStage s c
  | Callback.coinVisible b, c => setRightCoinVisible b c

/-! ## Events -/

/-- Everything that can happen to the mounted component: a click on one of
the controls, a timer that fires, the end of a panel's exit animation. -/
inductive Event where
  | connectClick
  | givePick (sym : String)
  | receivePick (sym : String)
  | resetClick
  | explorerClick
  | timerFires (handle : Nat)
  | exitComplete
deriving DecidableEq, Repr

/-- Does panel `p` contain the control that event `e` is a click on? -/
def Panel.hosts : Panel → Event → Bool
  | Panel.connect, Event.connectClick => true
  | Panel.give _, Event.givePick _ => true
  | Panel.receive _, Event.receivePick _ => true
  | Panel.complete, Event.resetClick => true
  | Panel.complete, Event.explorerClick => true
  | _, _ => false

/-- A click that lands on panel `p`: the `onClick` of the control runs, with
the props `p` was rendered with.  The handlers themselves test nothing; the
second button of the complete panel has no `onClick`. -/
def dispatch (p : Panel) (c : Ceremony) (e : Event) : Ceremony :=
  match p, e with
  | Panel.connect, Event.connectClick => connectWallet c
  | Panel.give ds, Event.givePick sym =>
      if clickable (TokenPicker TOKENS ds) sym = true then onPickGive sym c else c
  | Panel.receive ds, Event.receivePick sym =>
      if clickable (TokenPicker TOKENS ds) sym = true then onPickReceive sym c else c
  | Panel.complete, Event.resetClick => reset c
  | _, _ => c

/-- A click.  If the panel of the current stage hosts the control, the click
lands there, and when the handler changes the stage that panel becomes the
exiting one.  Otherwise the click lands on the exiting panel, if there is one;
the exiting panel stays as it is. -/
def click (m : Machine) (e : Event) : Machine :=
  match (panelOf m.ui).filter (fun p => p.hosts e) with
  | some p =>
      commit m.ui.stage
        { m with ui := dispatch p m.ui e,
                 exiting := if (dispatch p m.ui e).stage = m.ui.stage then m.exiting
                            else some p }
  | none =>
      match m.exiting with
      | some q => commit m.ui.stage { m with ui := dispatch q m.ui e }
      | none => m

/-- The exiting panel after timer `t` has fired on state `c` and produced
`c1`: a timer longer than an exit animation finds every exit finished, so the
panel of the stage is mounted, and it starts to exit if the stage changes. -/
def exitingAfterTimer (t : Timer) (c c1 : Ceremony) (exiting : Option Panel) : Option Panel :=
  if exitMs < t.delay then
    if c1.stage = c.stage then none else panelOf c
  else exiting

/-- One event.  A timer fires only if its handle is pending; it is then
removed from the pending list and its callback runs. -/
def step (m : Machine) (e : Event) : Machine :=
  match e with
  | Event.timerFires h =>
      match m.timers.find? (fun t => t.handle == h) with
      | none => m
      | some t =>
          commit m.ui.stage
            { m with ui := t.callback.apply m.ui,
                     timers := m.timers.filter (fun t => t.handle != h),
                     exiting := exitingAfterTimer t m.ui (t.callback.apply m.ui) m.exiting }
  | Event.exitComplete => { m with exiting := none }
  | ev => click m ev

/-- The component right after mount: both effects have run once with
`stage = "connectWallet"`; the connect panel is mounted, no panel is exiting. -/
def mount : Machine :=
  rightCoinFadeEffect (stageControllerEffect
    { ui := Ceremony.initial, timers := [], nextHandle := 1,
      stageCleanup := none, fadeCleanup := none, exiting := none })

/-- Run a sequence of events. -/
def run (m : Machine) (evs : List Event) : Machine := evs.foldl step m

/-- The stages visited: the stage before each event and the final one. -/
def stageTrace (m : Machine) : List Event → List Stage
  | [] => [m.ui.stage]
  | e :: es => m.ui.stage :: stageTrace (step m e) es

/-- Is this pending timer a stage-advance timer? -/
def Timer.isStageTimer (t : Timer) : Bool :=
  match t.callback with
  | Callback.stageTo _ => true
  | Callback.coinVisible _ => false

/-- Is this pending timer the fade timer? -/
def Timer.isFadeTimer (t : Timer) : Bool :=
  match t.callback with
  | Callback.stageTo _ => false
  | Callback.coinVisible b => !b

/-! ## GirlSketch bindings

The function component `GirlSketch` (lines 287-420).  The default export does
not instantiate it (it renders a `<video>` instead); the bindings below are
those of the component as it is written. -/

/-- The `animate` target of an arm's `motion.g`. -/
structure LimbTarget where
  x : ℚ
  y : ℚ
  scale : ℚ
  filter : String
deriving DecidableEq

/-- The constant `zOut.scale` (line 297). -/
def zOutScale : ℚ := 1.08

/-- The string of the extended arm's `filter`. -/
def dropShadow : String := "drop-shadow(0px 12px 24px rgba(0,0,0,0.12))"

/-- JavaScript truthiness of a `string | null` prop. -/
def truthy : Option String → Bool
  | none => false
  | some s => s != ""

/-- The flag `leftExtended` (line 293). -/
def leftExtended (stage : Stage) : Bool := stage == Stage.askGive

/-- The flag `leftRetracting` (line 294). -/
def leftRetracting (stage : Stage) : Bool := stage == Stage.leftRetract

/-- The flag `rightExtending` (line 295). -/
def rightExtending (stage : Stage) : Bool :=
  stage == Stage.offerReceive || stage == Stage.rightPresent

/-- The `animate` prop of the left arm (lines 356-361). -/
def leftArmTarget (stage : Stage) : LimbTarget :=
  { x := if leftExtended stage then -50 else if leftRetracting stage then 0 else -160,
    y := if leftExtended stage then -50 else if leftRetracting stage then 0 else 0,
    scale := if leftExtended stage then zOutScale else 1,
    filter := if leftExtended stage then dropShadow else "none" }

/-- The `animate` prop of the right arm (lines 383-388). -/
def rightArmTarget (stage : Stage) : LimbTarget :=
  { x := if rightExtending stage then 50 else -140,
    y := if rightExtending stage then -50 else 0,
    scale := if rightExtending stage then zOutScale else 1,
    filter := if rightExtending stage then dropShadow else "none" }

/-- The guard of the left coin (line 367). -/
def leftCoinMounted (stage : Stage) (leftCoin : Option String) : Bool :=
  truthy leftCoin && (stage == Stage.askGive || stage == Stage.leftRetract)

/-- The guard of the right coin (line 394). -/
def rightCoinMounted (stage : Stage) (rightCoin : Option String) : Bool :=
  truthy rightCoin &&
    (stage == Stage.offerReceive || stage == Stage.rightPresent || stage == Stage.complete)

/-! ## The invariant of the reachable states -/

/-- The shape every reachable state has: per stage, which selections are set
(and to what kind of value), which timers are pending and which panel may
still be exiting. -/
def WellFormed (m : Machine) : Prop :=
  (∀ t ∈ m.timers, t.handle < m.nextHandle) ∧
  match m.ui.stage with
  | Stage.connectWallet =>
      m.ui.userGives = none ∧ m.ui.userGets = none ∧ m.timers = [] ∧
        (m.exiting = none ∨ m.exiting = some Panel.complete)
  | Stage.askGive =>
      m.ui.userGives = none ∧ m.ui.userGets = none ∧ m.timers = [] ∧
        (m.exiting = none ∨ m.exiting = some Panel.connect)
  | Stage.leftRetract =>
      ∃ g h, g ∈ catalogSymbols ∧ m.ui.userGives = some g ∧ m.ui.userGets = none ∧
        m.timers = [{ handle := h, delay := 900, callback := Callback.stageTo Stage.offerReceive }] ∧
        m.stageCleanup = some h ∧
        (m.exiting = none ∨ m.exiting = some (Panel.give []))
  | Stage.offerReceive =>
      ∃ g, g ∈ catalogSymbols ∧ m.ui.userGives = some g ∧ m.ui.userGets = none ∧
        (m.timers = [] ∨
          ∃ h, m.timers = [{ handle := h, delay := 4000, callback := Callback.coinVisible false }] ∧
            m.fadeCleanup = some h ∧ m.ui.rightCoinVisible = true) ∧
        m.exiting = none
  | Stage.rightPresent =>
      ∃ g r h, g ∈ catalogSymbols ∧ r ∈ catalogSymbols ∧ g ≠ r ∧
        m.ui.userGives = some g ∧ m.ui.userGets = some r ∧
        m.timers = [{ handle := h, delay := 1100, callback := Callback.stageTo Stage.complete }] ∧
        m.stageCleanup = some h ∧
        (m.exiting = none ∨ m.exiting = some (Panel.receive (disabledSymbolsFor (some g))))
  | Stage.complete =>
      ∃ g r, g ∈ catalogSymbols ∧ r ∈ catalogSymbols ∧ g ≠ r ∧
        m.ui.userGives = some g ∧ m.ui.userGets = some r ∧ m.timers = [] ∧
        m.exiting = none

/-! ## Lemmas -/

theorem contains_true_iff (ds : List String) (x : String) : ds.contains x = true ↔ x ∈ ds := by
  simp

theorem clickable_TokenPicker (tokens : List Token) (ds : List String) (sym : String) :
    clickable (TokenPicker tokens ds) sym = true ↔
      sym ∈ tokens.map (fun t => t.symbol) ∧ sym ∉ ds := by
  induction tokens with
  | nil => simp [clickable, TokenPicker]
  | cons t ts ih =>
    have ih2 : (List.any (TokenPicker ts ds) fun b => b.symbol == sym && !b.disabled) = true ↔
        sym ∈ ts.map (fun t => t.symbol) ∧ sym ∉ ds := ih
    have hcons : clickable (TokenPicker (t :: ts) ds) sym =
        ((t.symbol == sym && !(ds.contains t.symbol)) ||
          (List.any (TokenPicker ts ds) fun b => b.symbol == sym && !b.disabled)) := rfl
    rw [hcons, Bool.or_eq_true, ih2]
    simp only [List.map_cons, List.mem_cons, Bool.and_eq_true, beq_iff_eq, Bool.not_eq_true']
    constructor
    · rintro (⟨h1, h2⟩ | ⟨h1, h2⟩)
      · subst h1
        refine ⟨Or.inl rfl, fun hmem => ?_⟩
        rw [(contains_true_iff ds t.symbol).mpr hmem] at h2
        cases h2
      · exact ⟨Or.inr h1, h2⟩
    · rintro ⟨h1 | h1, h2⟩
      · subst h1
        left
        refine ⟨rfl, ?_⟩
        cases h : ds.contains t.symbol with
        | false => rfl
        | true => exact absurd ((contains_true_iff ds t.symbol).mp h) h2
      · exact Or.inr ⟨h1, h2⟩

theorem mem_catalogSymbols (s : String) :
    s ∈ catalogSymbols ↔ s = "BTC" ∨ s = "APT" ∨ s = "ETH" ∨ s = "USDC" := by
  simp [catalogSymbols, TOKENS]

theorem clickable_catalog (e : Option String) (sym : String) :
    clickable (TokenPicker TOKENS (disabledSymbolsFor e)) sym = true ↔
      sym ∈ catalogSymbols ∧ e ≠ some sym := by
  rw [clickable_TokenPicker]
  show sym ∈ catalogSymbols ∧ _ ↔ _
  constructor
  · rintro ⟨h1, h2⟩
    refine ⟨h1, ?_⟩
    rintro rfl
    apply h2
    have : sym ≠ "" := by
      rw [mem_catalogSymbols] at h1
      rcases h1 with h | h | h | h <;> (subst h; decide)
    simp [disabledSymbolsFor, this]
  · rintro ⟨h1, h2⟩
    refine ⟨h1, ?_⟩
    cases e with
    | none => simp [disabledSymbolsFor]
    | some s =>
      simp only [disabledSymbolsFor]
      split
      · simp
      · simp; rintro rfl; exact h2 rfl

theorem wellFormed_mount : WellFormed mount := by
  simp [WellFormed, mount, rightCoinFadeEffect, stageControllerEffect, Ceremony.initial]

theorem wellFormed_step (m : Machine) (e : Event) (hm : WellFormed m) : WellFormed (step m e) := by
  obtain ⟨⟨stage, ug, ugt, wc, rcv⟩, timers, nh, sc, fc, ex⟩ := m
  obtain ⟨hh, hs⟩ := hm
  cases stage
  · obtain ⟨rfl, rfl, rfl, hex⟩ := hs
    rcases hex with rfl | rfl <;> cases e <;> cases sc <;> cases fc <;>
      simp [WellFormed, step, click, panelOf, Option.filter, Panel.hosts, dispatch, commit,
        connectWallet, reset, setStage, setWalletConnected, setUserGives, setUserGets,
        setRightCoinVisible, runCleanup, clearTimeout, stageControllerEffect,
        rightCoinFadeEffect]
  · obtain ⟨rfl, rfl, rfl, hex⟩ := hs
    cases e with
    | givePick sym =>
      by_cases hc : clickable (TokenPicker TOKENS []) sym = true
      · have hmem : sym ∈ catalogSymbols := ((clickable_catalog none sym).mp hc).1
        cases sc <;> cases fc <;>
        simp [WellFormed, step, click, panelOf, Option.filter, Panel.hosts, dispatch, commit,
          onPickGive, setStage, setUserGives, runCleanup, clearTimeout, stageControllerEffect,
          rightCoinFadeEffect, setTimeout, hc, hmem, disabledSymbolsFor]
      · simp only [step, click, panelOf, Option.filter, Panel.hosts, dispatch, commit,
          disabledSymbolsFor, hc, if_true, if_false]
        exact ⟨hh, rfl, rfl, rfl, hex⟩
    | _ =>
      rcases hex with rfl | rfl <;>
      simp [WellFormed, step, click, panelOf, Option.filter, Panel.hosts, dispatch, commit,
        connectWallet, setStage, setWalletConnected]
  · obtain ⟨g, h, hg, rfl, rfl, rfl, rfl, hex⟩ := hs
    cases e with
    | timerFires k =>
      by_cases hk : h = k
      · subst hk
        cases fc <;>
        simp [WellFormed, step, commit, Callback.apply, setStage, runCleanup, clearTimeout,
          stageControllerEffect, rightCoinFadeEffect, setTimeout, setRightCoinVisible, hg,
          exitingAfterTimer, exitMs, panelOf]
      · have hf : List.find? (fun t => t.handle == k)
            [({ handle := h, delay := 900, callback := Callback.stageTo Stage.offerReceive } : Timer)] = none := by
          simp [hk]
        simp only [step, hf]
        exact ⟨hh, g, h, hg, rfl, rfl, rfl, rfl, hex⟩
    | givePick sym =>
      rcases hex with rfl | rfl
      · simp only [step, click, panelOf, Option.filter]
        exact ⟨hh, g, h, hg, rfl, rfl, rfl, rfl, Or.inl rfl⟩
      · by_cases hc : clickable (TokenPicker TOKENS []) sym = true
        · have hmem : sym ∈ catalogSymbols := ((clickable_catalog none sym).mp hc).1
          simp only [step, click, panelOf, Option.filter, dispatch, commit, hc, if_true,
            onPickGive, setStage, setUserGives]
          exact ⟨hh, sym, h, hmem, rfl, rfl, rfl, rfl, Or.inr rfl⟩
        · simp only [step, click, panelOf, Option.filter, dispatch, commit, hc, if_true,
            if_false]
          exact ⟨hh, g, h, hg, rfl, rfl, rfl, rfl, Or.inr rfl⟩
    | exitComplete =>
      simp only [step]
      exact ⟨hh, g, h, hg, rfl, rfl, rfl, rfl, Or.inl rfl⟩
    | _ =>
      rcases hex with rfl | rfl <;>
      simp only [step, click, panelOf, Option.filter, dispatch, commit, if_true] <;>
      first
      | exact ⟨hh, g, h, hg, rfl, rfl, rfl, rfl, Or.inl rfl⟩
      | exact ⟨hh, g, h, hg, rfl, rfl, rfl, rfl, Or.inr rfl⟩
  · obtain ⟨g, hg, rfl, rfl, ht, rfl⟩ := hs
    cases e with
    | receivePick sym =>
      by_cases hc : clickable (TokenPicker TOKENS (disabledSymbolsFor (some g))) sym = true
      · obtain ⟨hmem, hne⟩ := (clickable_catalog (some g) sym).mp hc
        have hne2 : g ≠ sym := fun h => hne (by rw [h])
        rcases ht with rfl | ⟨h, rfl, rfl, rfl⟩
        · cases sc <;> cases fc <;>
          simp [WellFormed, step, click, panelOf, Option.filter, Panel.hosts, dispatch, commit,
            onPickReceive, setStage, setUserGets, runCleanup, clearTimeout,
            stageControllerEffect, rightCoinFadeEffect, setTimeout, hc, hmem, hg, hne2] <;>
          exact ⟨g, hg, sym, hmem, hne2, rfl, rfl, rfl⟩
        · cases sc <;>
          simp [WellFormed, step, click, panelOf, Option.filter, Panel.hosts, dispatch, commit,
            onPickReceive, setStage, setUserGets, runCleanup, clearTimeout,
            stageControllerEffect, rightCoinFadeEffect, setTimeout, hc, hmem, hg, hne2] <;>
          exact ⟨g, hg, sym, hmem, hne2, rfl, rfl, rfl⟩
      · simp only [step, click, panelOf, Option.filter, Panel.hosts, dispatch, commit, hc,
          if_false, if_true]
        exact ⟨hh, g, hg, rfl, rfl, ht, rfl⟩
    | timerFires k =>
      rcases ht with rfl | ⟨h, rfl, rfl, rfl⟩
      · simp only [step, List.find?_nil]
        exact ⟨hh, g, hg, rfl, rfl, Or.inl rfl, rfl⟩
      · by_cases hk : h = k
        · subst hk
          simp [WellFormed, step, commit, Callback.apply, setRightCoinVisible, hg,
            exitingAfterTimer, exitMs]
        · have hf : List.find? (fun t => t.handle == k)
              [({ handle := h, delay := 4000, callback := Callback.coinVisible false } : Timer)]
                = none := by
            simp [hk]
          simp only [step, hf]
          exact ⟨hh, g, hg, rfl, rfl, Or.inr ⟨h, rfl, rfl, rfl⟩, rfl⟩
    | exitComplete =>
      simp only [step]
      exact ⟨hh, g, hg, rfl, rfl, ht, rfl⟩
    | _ =>
      simp only [step, click, panelOf, Option.filter, Panel.hosts, dispatch, commit, if_true,
        Bool.false_eq_true, if_false]
      exact ⟨hh, g, hg, rfl, rfl, ht, rfl⟩
  · obtain ⟨g, r, h, hg, hr, hne, rfl, rfl, rfl, rfl, hex⟩ := hs
    cases e with
    | timerFires k =>
      by_cases hk : h = k
      · subst hk
        cases fc <;>
        simp [WellFormed, step, commit, Callback.apply, setStage, runCleanup, clearTimeout,
          stageControllerEffect, rightCoinFadeEffect, hg, hr, hne, exitingAfterTimer, exitMs,
          panelOf] <;>
        exact ⟨g, hg, r, hr, hne, rfl, rfl⟩
      · have hf : List.find? (fun t => t.handle == k)
            [({ handle := h, delay := 1100, callback := Callback.stageTo Stage.complete } : Timer)]
              = none := by
          simp [hk]
        simp only [step, hf]
        exact ⟨hh, g, r, h, hg, hr, hne, rfl, rfl, rfl, rfl, hex⟩
    | receivePick sym =>
      rcases hex with rfl | rfl
      · simp only [step, click, panelOf, Option.filter]
        exact ⟨hh, g, r, h, hg, hr, hne, rfl, rfl, rfl, rfl, Or.inl rfl⟩
      · by_cases hc : clickable (TokenPicker TOKENS (disabledSymbolsFor (some g))) sym = true
        · obtain ⟨hmem, hne1⟩ := (clickable_catalog (some g) sym).mp hc
          have hne2 : g ≠ sym := fun h => hne1 (by rw [h])
          simp only [step, click, panelOf, Option.filter, dispatch, commit, hc, if_true,
            onPickReceive, setStage, setUserGets]
          exact ⟨hh, g, sym, h, hg, hmem, hne2, rfl, rfl, rfl, rfl, Or.inr rfl⟩
        · simp only [step, click, panelOf, Option.filter, dispatch, commit, hc, if_true,
            if_false]
          exact ⟨hh, g, r, h, hg, hr, hne, rfl, rfl, rfl, rfl, Or.inr rfl⟩
    | exitComplete =>
      simp only [step]
      exact ⟨hh, g, r, h, hg, hr, hne, rfl, rfl, rfl, rfl, Or.inl rfl⟩
    | _ =>
      rcases hex with rfl | rfl <;>
      simp only [step, click, panelOf, Option.filter, dispatch, commit, if_true] <;>
      first
      | exact ⟨hh, g, r, h, hg, hr, hne, rfl, rfl, rfl, rfl, Or.inl rfl⟩
      | exact ⟨hh, g, r, h, hg, hr, hne, rfl, rfl, rfl, rfl, Or.inr rfl⟩
  · obtain ⟨g, r, hg, hr, hne, rfl, rfl, rfl, rfl⟩ := hs
    cases e with
    | resetClick =>
      cases sc <;> cases fc <;>
      simp [WellFormed, step, click, panelOf, Option.filter, Panel.hosts, dispatch, commit,
        reset, setStage, setUserGives, setUserGets, setWalletConnected, setRightCoinVisible,
        runCleanup, clearTimeout, stageControllerEffect, rightCoinFadeEffect]
    | timerFires k =>
      simp only [step, List.find?_nil]
      exact ⟨hh, g, r, hg, hr, hne, rfl, rfl, rfl, rfl⟩
    | exitComplete =>
      simp only [step]
      exact ⟨hh, g, r, hg, hr, hne, rfl, rfl, rfl, rfl⟩
    | _ =>
      simp only [step, click, panelOf, Option.filter, Panel.hosts, dispatch, commit, if_true,
        Bool.false_eq_true, if_false]
      exact ⟨hh, g, r, hg, hr, hne, rfl, rfl, rfl, rfl⟩

theorem wellFormed_run (m : Machine) (evs : List Event) (hm : WellFormed m) :
    WellFormed (run m evs) := by
  induction evs generalizing m with
  | nil => exact hm
  | cons e es ih => exact ih (step m e) (wellFormed_step m e hm)

/-- What the invariant says about the two selections, stage by stage. -/
theorem wellFormed_selections (m : Machine) (hm : WellFormed m) :
    (m.ui.userGives ≠ none ↔
      (m.ui.stage = Stage.leftRetract ∨ m.ui.stage = Stage.offerReceive ∨
        m.ui.stage = Stage.rightPresent ∨ m.ui.stage = Stage.complete)) ∧
    (m.ui.userGets ≠ none ↔
      (m.ui.stage = Stage.rightPresent ∨ m.ui.stage = Stage.complete)) ∧
    (m.ui.userGives ≠ none → m.ui.userGets ≠ none → m.ui.userGives ≠ m.ui.userGets) := by
  obtain ⟨⟨stage, ug, ugt, wc, rcv⟩, timers, nh, sc, fc, ex⟩ := m
  obtain ⟨_, hs⟩ := hm
  cases stage
  · obtain ⟨rfl, rfl, _⟩ := hs; simp
  · obtain ⟨rfl, rfl, _⟩ := hs; simp
  · obtain ⟨g, h, _, rfl, rfl, _⟩ := hs; simp
  · obtain ⟨g, _, rfl, rfl, _⟩ := hs; simp
  · obtain ⟨g, r, h, _, _, hne, rfl, rfl, _⟩ := hs; simp [hne]
  · obtain ⟨g, r, _, _, hne, rfl, rfl, _⟩ := hs; simp [hne]

theorem commit_nextHandle (s : Stage) (m : Machine) :
    m.nextHandle ≤ (commit s m).nextHandle := by
  obtain ⟨⟨stage, ug, ugt, wc, rcv⟩, timers, nh, sc, fc, ex⟩ := m
  cases sc <;> cases fc <;> cases stage <;> cases s <;>
    simp [commit, runCleanup, clearTimeout, stageControllerEffect, rightCoinFadeEffect, setTimeout]

theorem commit_timers (s : Stage) (m : Machine) (t : Timer) (ht : t ∈ (commit s m).timers) :
    t ∈ m.timers ∨ m.nextHandle ≤ t.handle := by
  obtain ⟨⟨stage, ug, ugt, wc, rcv⟩, timers, nh, sc, fc, ex⟩ := m
  cases sc <;> cases fc <;> cases stage <;> cases s <;>
    simp [commit, runCleanup, clearTimeout, stageControllerEffect, rightCoinFadeEffect,
      setTimeout, List.mem_filter] at ht ⊢ <;>
    first
    | exact Or.inl ht
    | exact Or.inl ht.1
    | exact Or.inl ht.1.1
    | (rcases ht with ht | rfl
       · first | exact Or.inl ht | exact Or.inl ht.1
       · exact Or.inr (le_refl _))

theorem click_nextHandle (m : Machine) (e : Event) : m.nextHandle ≤ (click m e).nextHandle := by
  unfold click
  split
  · next p _ =>
    exact commit_nextHandle m.ui.stage
      { m with ui := dispatch p m.ui e,
               exiting := if (dispatch p m.ui e).stage = m.ui.stage then m.exiting else some p }
  · split
    · next q _ => exact commit_nextHandle m.ui.stage { m with ui := dispatch q m.ui e }
    · exact le_refl _

theorem click_timers (m : Machine) (e : Event) (t : Timer) (ht : t ∈ (click m e).timers) :
    t ∈ m.timers ∨ m.nextHandle ≤ t.handle := by
  unfold click at ht
  split at ht
  · next p _ =>
    exact commit_timers m.ui.stage
      { m with ui := dispatch p m.ui e,
               exiting := if (dispatch p m.ui e).stage = m.ui.stage then m.exiting else some p }
      t ht
  · split at ht
    · next q _ => exact commit_timers m.ui.stage { m with ui := dispatch q m.ui e } t ht
    · exact Or.inl ht

theorem step_nextHandle (m : Machine) (e : Event) : m.nextHandle ≤ (step m e).nextHandle := by
  cases e with
  | timerFires h =>
    simp only [step]
    split
    · exact le_refl _
    · next t _ =>
      exact commit_nextHandle m.ui.stage
        { m with ui := t.callback.apply m.ui,
                 timers := m.timers.filter (fun t => t.handle != h),
                 exiting := exitingAfterTimer t m.ui (t.callback.apply m.ui) m.exiting }
  | exitComplete => exact le_refl _
  | connectClick => exact click_nextHandle m _
  | givePick sym => exact click_nextHandle m _
  | receivePick sym => exact click_nextHandle m _
  | resetClick => exact click_nextHandle m _
  | explorerClick => exact click_nextHandle m _

theorem step_timers (m : Machine) (e : Event) (t : Timer) (ht : t ∈ (step m e).timers) :
    t ∈ m.timers ∨ m.nextHandle ≤ t.handle := by
  cases e with
  | timerFires h =>
    simp only [step] at ht
    split at ht
    · exact Or.inl ht
    · next t0 _ =>
      rcases commit_timers m.ui.stage
        { m with ui := t0.callback.apply m.ui,
                 timers := m.timers.filter (fun t => t.handle != h),
                 exiting := exitingAfterTimer t0 m.ui (t0.callback.apply m.ui) m.exiting }
        t ht with h1 | h1
      · exact Or.inl (List.mem_filter.mp h1).1
      · exact Or.inr h1
  | exitComplete => exact Or.inl ht
  | connectClick => exact click_timers m _ t ht
  | givePick sym => exact click_timers m _ t ht
  | receivePick sym => exact click_timers m _ t ht
  | resetClick => exact click_timers m _ t ht
  | explorerClick => exact click_timers m _ t ht

/-- Handles issued before a given bound never come back: once every pending
timer has a handle above `k` and the counter is above `k`, this stays so. -/
theorem run_handles_above (k : Nat) (m : Machine) (evs : List Event)
    (hn : k < m.nextHandle) (ht : ∀ t ∈ m.timers, k < t.handle) :
    k < (run m evs).nextHandle ∧ ∀ t ∈ (run m evs).timers, k < t.handle := by
  induction evs generalizing m with
  | nil => exact ⟨hn, ht⟩
  | cons e es ih =>
    apply ih (step m e)
    · exact lt_of_lt_of_le hn (step_nextHandle m e)
    · intro t h
      rcases step_timers m e t h with h1 | h1
      · exact ht t h1
      · exact lt_of_lt_of_le hn h1

theorem step_timerFires_absent (m : Machine) (k : Nat) (h : ∀ t ∈ m.timers, t.handle ≠ k) :
    step m (Event.timerFires k) = m := by
  have : m.timers.find? (fun t => t.handle == k) = none := by
    rw [List.find?_eq_none]
    intro t ht
    simpa using h t ht
  simp only [step, this]

/-- In stage offerReceive a timer event leaves everything but `rightCoinVisible`
and the pending list as it is. -/
theorem offerReceive_timerFires (m : Machine) (k : Nat) (hm : WellFormed m)
    (hs : m.ui.stage = Stage.offerReceive) :
    (step m (Event.timerFires k)).ui.stage = Stage.offerReceive ∧
    (step m (Event.timerFires k)).ui.userGives = m.ui.userGives ∧
    (step m (Event.timerFires k)).ui.userGets = m.ui.userGets ∧
    (step m (Event.timerFires k)).ui.walletConnected = m.ui.walletConnected ∧
    (∀ t ∈ (step m (Event.timerFires k)).timers, t ∈ m.timers) := by
  obtain ⟨⟨stage, ug, ugt, wc, rcv⟩, timers, nh, sc, fc, ex⟩ := m
  obtain ⟨hh, hw⟩ := hm
  simp only at hs
  subst hs
  obtain ⟨g, hg, rfl, rfl, ht, _⟩ := hw
  rcases ht with rfl | ⟨h, rfl, rfl, rfl⟩
  · simp [step]
  · by_cases hk : h = k
    · subst hk
      simp [step, commit, Callback.apply, setRightCoinVisible]
    · have hf : List.find? (fun t => t.handle == k)
          [({ handle := h, delay := 4000, callback := Callback.coinVisible false } : Timer)]
            = none := by
        simp [hk]
      simp [step, hf]

theorem receivePick_rightCoinVisible (m : Machine) (sym : String)
    (hs : m.ui.stage = Stage.offerReceive) :
    (step m (Event.receivePick sym)).ui.rightCoinVisible = m.ui.rightCoinVisible := by
  obtain ⟨⟨stage, ug, ugt, wc, rcv⟩, timers, nh, sc, fc, ex⟩ := m
  simp only at hs
  subst hs
  by_cases hc : clickable (TokenPicker TOKENS (disabledSymbolsFor ug)) sym = true
  · cases sc <;> cases fc <;>
      simp [step, click, panelOf, Option.filter, Panel.hosts, dispatch, commit, onPickReceive,
        setStage, setUserGets, runCleanup, clearTimeout, stageControllerEffect,
        rightCoinFadeEffect, setTimeout, hc]
  · simp [step, click, panelOf, Option.filter, Panel.hosts, dispatch, commit, hc]

theorem offerReceive_pending (m : Machine) (hm : WellFormed m)
    (hs : m.ui.stage = Stage.offerReceive) (t : Timer) (ht : t ∈ m.timers) :
    m.timers = [t] ∧ m.ui.rightCoinVisible = true := by
  obtain ⟨⟨stage, ug, ugt, wc, rcv⟩, timers, nh, sc, fc, ex⟩ := m
  obtain ⟨_, hw⟩ := hm
  simp only at hs
  subst hs
  obtain ⟨g, _, _, _, hw, _⟩ := hw
  rcases hw with rfl | ⟨h, rfl, _, rfl⟩
  · simp at ht
  · simp at ht; subst ht; exact ⟨rfl, rfl⟩

theorem givePick_enters_leftRetract (m : Machine) (sym : String) (hm : WellFormed m)
    (hs : m.ui.stage = Stage.askGive)
    (hp : (step m (Event.givePick sym)).ui.stage = Stage.leftRetract) :
    (step m (Event.givePick sym)).ui = onPickGive sym m.ui ∧
    m.ui.userGets = none ∧
    (step m (Event.givePick sym)).timers =
      [{ handle := m.nextHandle, delay := 900,
         callback := Callback.stageTo Stage.offerReceive }] := by
  obtain ⟨⟨stage, ug, ugt, wc, rcv⟩, timers, nh, sc, fc, ex⟩ := m
  obtain ⟨_, hw⟩ := hm
  simp only at hs
  subst hs
  obtain ⟨rfl, rfl, rfl, _⟩ := hw
  by_cases hc : clickable (TokenPicker TOKENS []) sym = true
  · cases sc <;> cases fc <;>
      simp [step, click, panelOf, Option.filter, Panel.hosts, dispatch, commit, onPickGive,
        setStage, setUserGives, runCleanup, clearTimeout, stageControllerEffect,
        rightCoinFadeEffect, setTimeout, hc, disabledSymbolsFor]
  · simp [step, click, panelOf, Option.filter, Panel.hosts, dispatch, commit, hc,
      disabledSymbolsFor] at hp

theorem leftRetract_timer_fires (m : Machine) (h : Nat) (hm : WellFormed m)
    (hs : m.ui.stage = Stage.leftRetract)
    (ht : m.timers = [{ handle := h, delay := 900,
                        callback := Callback.stageTo Stage.offerReceive }]) :
    (step m (Event.timerFires h)).ui = setRightCoinVisible true (setStage Stage.offerReceive m.ui) ∧
    (step m (Event.timerFires h)).timers =
      [{ handle := m.nextHandle, delay := 4000, callback := Callback.coinVisible false }] := by
  obtain ⟨⟨stage, ug, ugt, wc, rcv⟩, timers, nh, sc, fc, ex⟩ := m
  obtain ⟨_, hw⟩ := hm
  simp only at hs ht
  subst hs
  subst ht
  obtain ⟨g, h', _, _, _, hh, rfl, _⟩ := hw
  simp at hh
  subst hh
  cases fc <;>
    simp [step, commit, Callback.apply, setStage, runCleanup, clearTimeout,
      stageControllerEffect, rightCoinFadeEffect, setTimeout, setRightCoinVisible]

theorem offerReceive_timer_events (m : Machine) (hs : List Nat) (hm : WellFormed m)
    (hst : m.ui.stage = Stage.offerReceive) :
    WellFormed (run m (hs.map Event.timerFires)) ∧
    (run m (hs.map Event.timerFires)).ui.stage = Stage.offerReceive ∧
    (run m (hs.map Event.timerFires)).ui.userGives = m.ui.userGives ∧
    (run m (hs.map Event.timerFires)).ui.userGets = m.ui.userGets ∧
    (run m (hs.map Event.timerFires)).ui.walletConnected = m.ui.walletConnected ∧
    (∀ t ∈ (run m (hs.map Event.timerFires)).timers, t ∈ m.timers) := by
  induction hs generalizing m with
  | nil => exact ⟨hm, hst, rfl, rfl, rfl, fun _ h => h⟩
  | cons k ks ih =>
    obtain ⟨h1, h2, h3, h4, h5⟩ := offerReceive_timerFires m k hm hst
    obtain ⟨i0, i1, i2, i3, i4, i5⟩ := ih (step m (Event.timerFires k))
      (wellFormed_step m _ hm) h1
    refine ⟨i0, i1, i2.trans h2, i3.trans h3, i4.trans h4, fun t ht => h5 t (i5 t ht)⟩

/-! ## Clicks on the exiting panel -/

/-- A give-pick on the give panel that is still exiting (stage leftRetract)
runs `onPick` again: userGives is replaced, the stage and the pending stage
timer stay. -/
theorem exiting_give_pick :
    (run mount [Event.connectClick, Event.givePick "BTC", Event.givePick "APT"]).ui =
      { stage := Stage.leftRetract, userGives := some "APT", userGets := none,
        walletConnected := true, rightCoinVisible := true } ∧
    (run mount [Event.connectClick, Event.givePick "BTC", Event.givePick "APT"]).timers =
      [{ handle := 1, delay := 900, callback := Callback.stageTo Stage.offerReceive }] := by
  decide

/-- A receive-pick on the receive panel that is still exiting (stage
rightPresent) runs `onPick` again: userGets is replaced; the button of the
given token is still disabled there. -/
theorem exiting_receive_pick :
    (run mount [Event.connectClick, Event.givePick "BTC", Event.timerFires 1,
        Event.receivePick "APT", Event.receivePick "USDC", Event.timerFires 3]).ui =
      { stage := Stage.complete, userGives := some "BTC", userGets := some "USDC",
        walletConnected := true, rightCoinVisible := true } ∧
    (run mount [Event.connectClick, Event.givePick "BTC", Event.timerFires 1,
        Event.receivePick "APT", Event.receivePick "BTC"]).ui.userGets = some "APT" := by
  decide

/-- Once the exit animation has ended, or a timer has fired, the replaced
panel is gone and a pick on it does nothing. -/
theorem exited_panel_pick :
    run mount [Event.connectClick, Event.givePick "BTC", Event.exitComplete,
        Event.givePick "APT"] =
      run mount [Event.connectClick, Event.givePick "BTC", Event.exitComplete] ∧
    run mount [Event.connectClick, Event.givePick "BTC", Event.timerFires 1,
        Event.givePick "APT"] =
      run mount [Event.connectClick, Event.givePick "BTC", Event.timerFires 1] ∧
    run mount [Event.connectClick, Event.givePick "BTC", Event.timerFires 1,
        Event.receivePick "APT", Event.timerFires 3, Event.receivePick "USDC"] =
      run mount [Event.connectClick, Event.givePick "BTC", Event.timerFires 1,
        Event.receivePick "APT", Event.timerFires 3] := by
  decide

/-- With no panel exiting, a click whose control is not in the panel of the
current stage changes nothing. -/
theorem click_without_panel (m : Machine) (e : Event) (hex : m.exiting = none)
    (hp : ∀ p, panelOf m.ui = some p → p.hosts e = false) : click m e = m := by
  unfold click
  cases h : panelOf m.ui with
  | none => simp [Option.filter, hex]
  | some p => simp [Option.filter, hp p h, hex]

/-! ## Claims -/

/-- C4: whatever the five state cells hold, `reset` yields exactly the state
the component is created with (stage connectWallet, no selections, wallet not
connected, right coin visible); so `reset` fixes the initial state and is
idempotent, and the reset button of the complete panel puts the mounted
component back into that state. -/
theorem C4_reset_restores_initial :
    (∀ c : Ceremony, reset c = Ceremony.initial) ∧
    Ceremony.initial =
      { stage := Stage.connectWallet, userGives := none, userGets := none,
        walletConnected := false, rightCoinVisible := true } ∧
    mount.ui = Ceremony.initial ∧
    reset Ceremony.initial = Ceremony.initial ∧
    (∀ c : Ceremony, reset (reset c) = reset c) ∧
    (∀ m : Machine, m.ui.stage = Stage.complete →
      (step m Event.resetClick).ui = Ceremony.initial) := by
  have h : ∀ c : Ceremony, reset c = Ceremony.initial := fun c => rfl
  refine ⟨h, rfl, rfl, rfl, fun c => rfl, ?_⟩
  intro m hm
  obtain ⟨⟨stage, ug, ugt, wc, rcv⟩, timers, nh, sc, fc, ex⟩ := m
  simp only at hm
  subst hm
  cases sc <;> cases fc <;>
    simp [step, click, panelOf, Option.filter, Panel.hosts, dispatch, commit, reset, setStage,
      setUserGives, setUserGets, setWalletConnected, setRightCoinVisible, runCleanup,
      clearTimeout, stageControllerEffect, rightCoinFadeEffect, Ceremony.initial]

/-- C7: with `disabledSymbols = e ? [e] : []`, the buttons TokenPicker leaves
enabled over TOKENS are exactly the catalog symbols different from `e`, in
catalog order, and each button is disabled iff its symbol is `e`; with `e`
absent every catalog token is enabled; the catalog symbols are pairwise
distinct, and when `e` is a catalog symbol exactly one button, the one of `e`,
is disabled. -/
theorem C7_selection_gate :
    (∀ e : Option String,
      enabledSymbols (TokenPicker TOKENS (disabledSymbolsFor e)) =
        catalogSymbols.filter (fun s => decide (some s ≠ e))) ∧
    (∀ (e : Option String) (b : Button), b ∈ TokenPicker TOKENS (disabledSymbolsFor e) →
      (b.disabled = true ↔ e = some b.symbol)) ∧
    enabledSymbols (TokenPicker TOKENS (disabledSymbolsFor none)) = catalogSymbols ∧
    catalogSymbols.Nodup ∧
    (∀ s : String, s ∈ catalogSymbols →
      disabledButtons (TokenPicker TOKENS (disabledSymbolsFor (some s))) = [s] ∧
      (enabledSymbols (TokenPicker TOKENS (disabledSymbolsFor (some s)))).length = 3) := by
  have key : ∀ s : String, s ≠ "" →
      enabledSymbols (TokenPicker TOKENS (disabledSymbolsFor (some s))) =
        catalogSymbols.filter (fun x => decide (some x ≠ some s)) := by
    intro s hs
    by_cases hmem : s ∈ catalogSymbols
    · rw [mem_catalogSymbols] at hmem
      rcases hmem with rfl | rfl | rfl | rfl <;> decide
    · rw [mem_catalogSymbols] at hmem
      push_neg at hmem
      obtain ⟨h1, h2, h3, h4⟩ := hmem
      have e1 : ("BTC" == s) = false := by simpa using Ne.symm h1
      have e2 : ("APT" == s) = false := by simpa using Ne.symm h2
      have e3 : ("ETH" == s) = false := by simpa using Ne.symm h3
      have e4 : ("USDC" == s) = false := by simpa using Ne.symm h4
      simp [enabledSymbols, TokenPicker, TOKENS, catalogSymbols, disabledSymbolsFor, hs,
        List.filter_cons, e1, e2, e3, e4, Ne.symm h1, Ne.symm h2, Ne.symm h3, Ne.symm h4]
  refine ⟨?_, ?_, by decide, by decide, ?_⟩
  · intro e
    cases e with
    | none => decide
    | some s =>
      by_cases hs : s = ""
      · subst hs; decide
      · exact key s hs
  · intro e b hb
    simp only [TokenPicker, List.mem_map] at hb
    obtain ⟨t, ht, rfl⟩ := hb
    have hne : t.symbol ≠ "" := by
      simp only [TOKENS, List.mem_cons, List.mem_singleton, List.not_mem_nil, or_false] at ht
      rcases ht with rfl | rfl | rfl | rfl <;> decide
    cases e with
    | none => simp [disabledSymbolsFor]
    | some s =>
      by_cases hs : s = ""
      · subst hs
        simp [disabledSymbolsFor]
        exact fun h => hne h.symm
      · simp [disabledSymbolsFor, hs, eq_comm]
  · intro s hs
    rw [mem_catalogSymbols] at hs
    rcases hs with rfl | rfl | rfl | rfl <;> decide

/-- C9, as stated, fails: in stage complete a non-empty right coin is mounted,
although complete is neither offerReceive nor rightPresent. -/
theorem C9_right_coin_mounted_in_complete :
    ¬ (rightCoinMounted Stage.complete (some "APT") = true ↔
        (Stage.complete = Stage.offerReceive ∨ Stage.complete = Stage.rightPresent)) := by
  decide

/-- C9, amended: for non-empty coin symbols the left coin is mounted iff the
stage is askGive or leftRetract, and the right coin is mounted iff the stage is
offerReceive, rightPresent or complete; in connectWallet neither coin is
mounted, in complete the left coin is not mounted, and in no stage are both
coins mounted. -/
theorem C9_coin_mounting (stage : Stage) (leftCoin rightCoin : String)
    (hl : leftCoin ≠ "") (hr : rightCoin ≠ "") :
    (leftCoinMounted stage (some leftCoin) = true ↔
      (stage = Stage.askGive ∨ stage = Stage.leftRetract)) ∧
    (rightCoinMounted stage (some rightCoin) = true ↔
      (stage = Stage.offerReceive ∨ stage = Stage.rightPresent ∨ stage = Stage.complete)) ∧
    (leftCoinMounted Stage.connectWallet (some leftCoin) = false ∧
      rightCoinMounted Stage.connectWallet (some rightCoin) = false) ∧
    leftCoinMounted Stage.complete (some leftCoin) = false ∧
    ¬ (leftCoinMounted stage (some leftCoin) = true ∧
        rightCoinMounted stage (some rightCoin) = true) := by
  cases stage <;> simp [leftCoinMounted, rightCoinMounted, truthy, hl, hr]

/-- C9, amended, at the coins "BTC" and "APT" in stage complete. -/
theorem C9_coin_mounting_witness :
    rightCoinMounted Stage.complete (some "APT") = true ∧
    leftCoinMounted Stage.complete (some "BTC") = false :=
  have h := C9_coin_mounting Stage.complete "BTC" "APT" (by decide) (by decide)
  ⟨h.2.1.mpr (Or.inr (Or.inr rfl)), h.2.2.2.1⟩

/-- C10, as stated, fails: in stage complete the right arm's target is the
rest pose, not the extended pose, and it differs from the target in stage
rightPresent. -/
theorem C10_right_arm_rest_in_complete :
    ¬ ((rightArmTarget Stage.complete).x = 50 ∧ (rightArmTarget Stage.complete).y = -50 ∧
        (rightArmTarget Stage.complete).scale = 1.08) ∧
    rightArmTarget Stage.complete ≠ rightArmTarget Stage.rightPresent := by
  constructor
  · simp [rightArmTarget, rightExtending]
  · decide

/-- C10, amended: the right arm's target is the extended, scaled-up pose
(x = 50, y = -50, scale = 1.08, drop shadow) in exactly the stages
offerReceive and rightPresent, and the rest pose (x = -140, y = 0, scale = 1,
no filter) in connectWallet, askGive, leftRetract and complete; the target in
stage complete equals the target in stage connectWallet. -/
theorem C10_right_arm_binding (stage : Stage) :
    (rightArmTarget stage = { x := 50, y := -50, scale := 1.08, filter := dropShadow } ↔
      (stage = Stage.offerReceive ∨ stage = Stage.rightPresent)) ∧
    (rightArmTarget stage = { x := -140, y := 0, scale := 1, filter := "none" } ↔
      (stage = Stage.connectWallet ∨ stage = Stage.askGive ∨ stage = Stage.leftRetract ∨
        stage = Stage.complete)) ∧
    rightArmTarget Stage.complete = rightArmTarget Stage.connectWallet := by
  cases stage <;> simp [rightArmTarget, rightExtending, zOutScale, dropShadow]

/-- C2: for every symbol T, in particular for every catalog token, a
receive-pick of T in stage offerReceive while userGives = T, and a give-pick of
T in stage askGive while userGets = T, leave the whole component unchanged: the
five state cells (stage, userGives, userGets, walletConnected,
rightCoinVisible) and the pending timers. -/
theorem C2_duplicate_pick_noop (m : Machine) (T : String) :
    (m.ui.stage = Stage.offerReceive → m.ui.userGives = some T →
      step m (Event.receivePick T) = m) ∧
    (m.ui.stage = Stage.askGive → m.ui.userGets = some T →
      step m (Event.givePick T) = m) := by
  obtain ⟨⟨stage, ug, ugt, wc, rcv⟩, timers, nh, sc, fc, ex⟩ := m
  constructor
  · intro hs hg
    simp only at hs hg
    subst hs
    have hc : ¬ clickable (TokenPicker TOKENS (disabledSymbolsFor ug)) T = true := by
      rw [clickable_catalog]
      exact fun h => h.2 hg
    simp [step, click, panelOf, Option.filter, Panel.hosts, dispatch, commit, hc]
  · intro hs hg
    simp only at hs hg
    subst hs
    have hc : ¬ clickable (TokenPicker TOKENS (disabledSymbolsFor ugt)) T = true := by
      rw [clickable_catalog]
      exact fun h => h.2 hg
    simp [step, click, panelOf, Option.filter, Panel.hosts, dispatch, commit, hc]

/-- C2 at the scenario connect, pick "ETH" as give, wait D1, pick "ETH" as
receive: the state reached before the second pick is in stage offerReceive
with userGives = "ETH" and userGets unset, and the second pick changes
nothing. -/
theorem C2_duplicate_pick_noop_witness :
    (run mount [Event.connectClick, Event.givePick "ETH", Event.timerFires 1]).ui =
      { stage := Stage.offerReceive, userGives := some "ETH", userGets := none,
        walletConnected := true, rightCoinVisible := true } ∧
    step (run mount [Event.connectClick, Event.givePick "ETH", Event.timerFires 1])
        (Event.receivePick "ETH") =
      run mount [Event.connectClick, Event.givePick "ETH", Event.timerFires 1] :=
  ⟨by decide,
    (C2_duplicate_pick_noop
      (run mount [Event.connectClick, Event.givePick "ETH", Event.timerFires 1]) "ETH").1
      (by decide) (by decide)⟩

/-- C1: in every state reached from the mounted component by any sequence of
events (connect, give-pick, receive-pick, reset, explorer click, timer fire,
end of an exit animation), a pick being a click on an enabled button of the
panel of the current stage or of the panel that is still exiting, if userGives
and userGets are both set then they differ. -/
theorem C1_selections_distinct (evs : List Event)
    (hg : (run mount evs).ui.userGives ≠ none) (hr : (run mount evs).ui.userGets ≠ none) :
    (run mount evs).ui.userGives ≠ (run mount evs).ui.userGets :=
  (wellFormed_selections _ (wellFormed_run mount evs wellFormed_mount)).2.2 hg hr

/-- C1 at the run connect, give "BTC", give "APT" on the exiting give panel,
D1, receive "BTC", receive "USDC" on the exiting receive panel: both selections
are set, to "APT" and "USDC", and they differ. -/
theorem C1_selections_distinct_witness :
    (run mount [Event.connectClick, Event.givePick "BTC", Event.givePick "APT",
        Event.timerFires 1, Event.receivePick "BTC", Event.receivePick "USDC"]).ui.userGives =
      some "APT" ∧
    (run mount [Event.connectClick, Event.givePick "BTC", Event.givePick "APT",
        Event.timerFires 1, Event.receivePick "BTC", Event.receivePick "USDC"]).ui.userGets =
      some "USDC" ∧
    (run mount [Event.connectClick, Event.givePick "BTC", Event.givePick "APT",
        Event.timerFires 1, Event.receivePick "BTC", Event.receivePick "USDC"]).ui.userGives ≠
      (run mount [Event.connectClick, Event.givePick "BTC", Event.givePick "APT",
        Event.timerFires 1, Event.receivePick "BTC", Event.receivePick "USDC"]).ui.userGets :=
  ⟨by decide, by decide,
    C1_selections_distinct
      [Event.connectClick, Event.givePick "BTC", Event.givePick "APT", Event.timerFires 1,
        Event.receivePick "BTC", Event.receivePick "USDC"]
      (by decide) (by decide)⟩

/-- C8: in every state reached from the mounted component by any sequence of
events, picks on the panel that is still exiting included, userGives is set
iff the stage is leftRetract, offerReceive, rightPresent or complete, and
userGets is set iff the stage is rightPresent or complete. -/
theorem C8_selections_track_stage (evs : List Event) :
    ((run mount evs).ui.userGives ≠ none ↔
      ((run mount evs).ui.stage = Stage.leftRetract ∨
        (run mount evs).ui.stage = Stage.offerReceive ∨
        (run mount evs).ui.stage = Stage.rightPresent ∨
        (run mount evs).ui.stage = Stage.complete)) ∧
    ((run mount evs).ui.userGets ≠ none ↔
      ((run mount evs).ui.stage = Stage.rightPresent ∨
        (run mount evs).ui.stage = Stage.complete)) :=
  have h := wellFormed_selections _ (wellFormed_run mount evs wellFormed_mount)
  ⟨h.1, h.2.1⟩

/-- C3: for distinct catalog tokens g and r, the events connect, pick g as
give, the 900 ms stage timer fires, pick r as receive, the 1100 ms stage timer
fires lead from the mounted component to stage complete with userGives = g and
userGets = r, through the stages connectWallet, askGive, leftRetract,
offerReceive, rightPresent, complete in that order; the two timers fired are
the pending stage timers of 900 ms and 1100 ms. -/
theorem C3_happy_path (g r : String) (hg : g ∈ catalogSymbols) (hr : r ∈ catalogSymbols)
    (hne : g ≠ r) :
    (run mount [Event.connectClick, Event.givePick g, Event.timerFires 1,
        Event.receivePick r, Event.timerFires 3]).ui.stage = Stage.complete ∧
    (run mount [Event.connectClick, Event.givePick g, Event.timerFires 1,
        Event.receivePick r, Event.timerFires 3]).ui.userGives = some g ∧
    (run mount [Event.connectClick, Event.givePick g, Event.timerFires 1,
        Event.receivePick r, Event.timerFires 3]).ui.userGets = some r ∧
    stageTrace mount [Event.connectClick, Event.givePick g, Event.timerFires 1,
        Event.receivePick r, Event.timerFires 3] =
      [Stage.connectWallet, Stage.askGive, Stage.leftRetract, Stage.offerReceive,
        Stage.rightPresent, Stage.complete] ∧
    (run mount [Event.connectClick, Event.givePick g]).timers =
      [{ handle := 1, delay := 900, callback := Callback.stageTo Stage.offerReceive }] ∧
    (run mount [Event.connectClick, Event.givePick g, Event.timerFires 1,
        Event.receivePick r]).timers =
      [{ handle := 3, delay := 1100, callback := Callback.stageTo Stage.complete }] := by
  rw [mem_catalogSymbols] at hg hr
  rcases hg with rfl | rfl | rfl | rfl <;> rcases hr with rfl | rfl | rfl | rfl <;>
    first
    | exact absurd rfl hne
    | decide

/-- C3 at g = "BTC", r = "APT". -/
theorem C3_happy_path_witness :
    (run mount [Event.connectClick, Event.givePick "BTC", Event.timerFires 1,
        Event.receivePick "APT", Event.timerFires 3]).ui =
      { stage := Stage.complete, userGives := some "BTC", userGets := some "APT",
        walletConnected := true, rightCoinVisible := true } ∧
    stageTrace mount [Event.connectClick, Event.givePick "BTC", Event.timerFires 1,
        Event.receivePick "APT", Event.timerFires 3] =
      [Stage.connectWallet, Stage.askGive, Stage.leftRetract, Stage.offerReceive,
        Stage.rightPresent, Stage.complete] :=
  ⟨by decide, (C3_happy_path "BTC" "APT" (by decide) (by decide) (by decide)).2.2.2.1⟩

/-- C5: in every reachable state (reached by any events, picks on the panel
that is still exiting included) a pending fade timer exists only while the
stage is offerReceive; and when, in a reachable state of stage offerReceive
with the fade timer `t` still pending, a receive-pick moves the stage to
rightPresent, then right after the pick no fade timer is pending and
rightCoinVisible is true, and in every later state `t` is not pending, no
pending timer carries its handle, and a firing of its handle changes nothing. -/
theorem C5_fade_timer_cancelled :
    (∀ (evs : List Event) (t : Timer), t ∈ (run mount evs).timers → t.isFadeTimer = true →
      (run mount evs).ui.stage = Stage.offerReceive) ∧
    (∀ (evs : List Event) (sym : String) (t : Timer),
      (run mount evs).ui.stage = Stage.offerReceive →
      t ∈ (run mount evs).timers → t.isFadeTimer = true →
      (step (run mount evs) (Event.receivePick sym)).ui.stage = Stage.rightPresent →
      (∀ u ∈ (step (run mount evs) (Event.receivePick sym)).timers, u.isFadeTimer = false) ∧
      (step (run mount evs) (Event.receivePick sym)).ui.rightCoinVisible = true ∧
      ∀ later : List Event,
        t ∉ (run (step (run mount evs) (Event.receivePick sym)) later).timers ∧
        (∀ u ∈ (run (step (run mount evs) (Event.receivePick sym)) later).timers,
          u.handle ≠ t.handle) ∧
        step (run (step (run mount evs) (Event.receivePick sym)) later)
            (Event.timerFires t.handle) =
          run (step (run mount evs) (Event.receivePick sym)) later) := by
  have fadeOnly : ∀ m : Machine, WellFormed m → ∀ t ∈ m.timers, t.isFadeTimer = true →
      m.ui.stage = Stage.offerReceive := by
    intro m hm t ht hf
    obtain ⟨⟨stage, ug, ugt, wc, rcv⟩, timers, nh, sc, fc, ex⟩ := m
    obtain ⟨_, hs⟩ := hm
    cases stage
    · obtain ⟨_, _, rfl, _⟩ := hs; simp at ht
    · obtain ⟨_, _, rfl, _⟩ := hs; simp at ht
    · obtain ⟨g, h, _, _, _, rfl, _⟩ := hs
      simp at ht; subst ht; simp [Timer.isFadeTimer] at hf
    · rfl
    · obtain ⟨g, r, h, _, _, _, _, _, rfl, _⟩ := hs
      simp at ht; subst ht; simp [Timer.isFadeTimer] at hf
    · obtain ⟨g, r, _, _, _, _, _, rfl, _⟩ := hs; simp at ht
  refine ⟨fun evs t ht hf => fadeOnly _ (wellFormed_run mount evs wellFormed_mount) t ht hf, ?_⟩
  intro evs sym t hstage ht hf hpick
  have hm := wellFormed_run mount evs wellFormed_mount
  have hm' := wellFormed_step _ (Event.receivePick sym) hm
  generalize run mount evs = m at *
  generalize hdef : step m (Event.receivePick sym) = m' at *
  have hnext : t.handle < m'.nextHandle :=
    lt_of_lt_of_le (hm.1 t ht) (hdef ▸ step_nextHandle m (Event.receivePick sym))
  have hnofade : ∀ u ∈ m'.timers, u.isFadeTimer = false := by
    intro u hu
    cases hfu : u.isFadeTimer with
    | false => rfl
    | true =>
      have := fadeOnly m' hm' u hu hfu
      rw [hpick] at this
      cases this
  have habove : ∀ u ∈ m'.timers, t.handle < u.handle := by
    intro u hu
    rcases step_timers m (Event.receivePick sym) u (hdef ▸ hu) with h1 | h1
    · rw [(offerReceive_pending m hm hstage t ht).1] at h1
      have hut : u = t := by simpa using h1
      have := hnofade u hu
      rw [hut, hf] at this
      cases this
    · exact lt_of_lt_of_le (hm.1 t ht) h1
  refine ⟨hnofade, ?_, ?_⟩
  · rw [← hdef, receivePick_rightCoinVisible m sym hstage]
    exact (offerReceive_pending m hm hstage t ht).2
  · intro later
    have hl := (run_handles_above t.handle m' later hnext habove).2
    refine ⟨fun hmem => lt_irrefl _ (hl t hmem), fun u hu => (ne_of_lt (hl u hu)).symm, ?_⟩
    exact step_timerFires_absent _ _ (fun u hu => (ne_of_lt (hl u hu)).symm)

/-- C5 on the run connect, give "BTC", D1, then receive "APT" while the fade
timer (handle 2) is still pending: the pick leaves only the 1100 ms stage timer
pending, and a firing of handle 2 changes nothing in any later state. -/
theorem C5_fade_timer_cancelled_witness :
    ({ handle := 2, delay := 4000, callback := Callback.coinVisible false } : Timer) ∈
      (run mount [Event.connectClick, Event.givePick "BTC", Event.timerFires 1]).timers ∧
    (step (run mount [Event.connectClick, Event.givePick "BTC", Event.timerFires 1])
        (Event.receivePick "APT")).timers =
      [{ handle := 3, delay := 1100, callback := Callback.stageTo Stage.complete }] ∧
    ∀ later : List Event,
      step (run (step (run mount [Event.connectClick, Event.givePick "BTC", Event.timerFires 1])
          (Event.receivePick "APT")) later) (Event.timerFires 2) =
        run (step (run mount [Event.connectClick, Event.givePick "BTC", Event.timerFires 1])
          (Event.receivePick "APT")) later :=
  ⟨by decide, by decide, fun later =>
    ((C5_fade_timer_cancelled.2
      [Event.connectClick, Event.givePick "BTC", Event.timerFires 1] "APT"
      { handle := 2, delay := 4000, callback := Callback.coinVisible false }
      (by decide) (by decide) (by decide) (by decide)).2.2 later).2.2⟩

/-- C6: when, in a reachable state of stage askGive, a give-pick moves the
stage to leftRetract, exactly one timer is pending afterwards, the 900 ms
stage-advance timer to offerReceive; when it fires the stage becomes
offerReceive and the only pending timer is the 4000 ms fade timer, so no
stage-advance timer is pending; and whatever timer events follow, the stage
stays offerReceive, userGives, userGets and walletConnected keep their values
and no stage-advance timer becomes pending. -/
theorem C6_stage_timer_discipline (evs : List Event) (sym : String)
    (hstage : (run mount evs).ui.stage = Stage.askGive)
    (hpick : (step (run mount evs) (Event.givePick sym)).ui.stage = Stage.leftRetract) :
    ∃ h : Nat,
      (step (run mount evs) (Event.givePick sym)).timers =
        [{ handle := h, delay := 900, callback := Callback.stageTo Stage.offerReceive }] ∧
      ((step (run mount evs) (Event.givePick sym)).timers.filter Timer.isStageTimer).length = 1 ∧
      (step (step (run mount evs) (Event.givePick sym)) (Event.timerFires h)).ui.stage =
        Stage.offerReceive ∧
      (∀ t ∈ (step (step (run mount evs) (Event.givePick sym)) (Event.timerFires h)).timers,
        t.isStageTimer = false) ∧
      ∀ fires : List Nat,
        (run (step (step (run mount evs) (Event.givePick sym)) (Event.timerFires h))
          (fires.map Event.timerFires)).ui.stage = Stage.offerReceive ∧
        (run (step (step (run mount evs) (Event.givePick sym)) (Event.timerFires h))
          (fires.map Event.timerFires)).ui.userGives = some sym ∧
        (run (step (step (run mount evs) (Event.givePick sym)) (Event.timerFires h))
          (fires.map Event.timerFires)).ui.userGets = none ∧
        (run (step (step (run mount evs) (Event.givePick sym)) (Event.timerFires h))
          (fires.map Event.timerFires)).ui.walletConnected =
          (run mount evs).ui.walletConnected ∧
        (∀ t ∈ (run (step (step (run mount evs) (Event.givePick sym)) (Event.timerFires h))
          (fires.map Event.timerFires)).timers, t.isStageTimer = false) := by
  have hm := wellFormed_run mount evs wellFormed_mount
  generalize run mount evs = m at *
  refine ⟨m.nextHandle, ?_⟩
  obtain ⟨hui1, hgets, ht1⟩ := givePick_enters_leftRetract m sym hm hstage hpick
  have hm1 := wellFormed_step m (Event.givePick sym) hm
  generalize step m (Event.givePick sym) = m1 at *
  obtain ⟨hui2, ht2⟩ := leftRetract_timer_fires m1 m.nextHandle hm1 hpick ht1
  have hm2 := wellFormed_step m1 (Event.timerFires m.nextHandle) hm1
  generalize step m1 (Event.timerFires m.nextHandle) = m2 at *
  have hst2 : m2.ui.stage = Stage.offerReceive := by rw [hui2]; rfl
  have hno : ∀ t ∈ m2.timers, t.isStageTimer = false := by
    intro t ht
    rw [ht2] at ht
    have : t = { handle := m1.nextHandle, delay := 4000,
                 callback := Callback.coinVisible false } := by simpa using ht
    rw [this]; rfl
  refine ⟨ht1, by rw [ht1]; rfl, hst2, hno, fun fires => ?_⟩
  obtain ⟨_, j1, j2, j3, j4, j5⟩ := offerReceive_timer_events m2 fires hm2 hst2
  refine ⟨j1, j2.trans ?_, j3.trans ?_, j4.trans ?_, fun t ht => hno t (j5 t ht)⟩
  · rw [hui2, hui1]; rfl
  · rw [hui2, hui1]; exact hgets
  · rw [hui2, hui1]; rfl

/-- C6 on the run connect, give "BTC": the pick enters leftRetract with the
900 ms stage timer as the only pending timer, and its firing enters
offerReceive. -/
theorem C6_stage_timer_discipline_witness :
    (run mount [Event.connectClick]).ui.stage = Stage.askGive ∧
    (step (run mount [Event.connectClick]) (Event.givePick "BTC")).ui.stage =
      Stage.leftRetract ∧
    ∃ h : Nat,
      (step (run mount [Event.connectClick]) (Event.givePick "BTC")).timers =
        [{ handle := h, delay := 900, callback := Callback.stageTo Stage.offerReceive }] ∧
      (step (step (run mount [Event.connectClick]) (Event.givePick "BTC"))
        (Event.timerFires h)).ui.stage = Stage.offerReceive :=
  ⟨by decide, by decide,
    match C6_stage_timer_discipline [Event.connectClick] "BTC" (by decide) (by decide) with
    | ⟨h, h1, _, h3, _⟩ => ⟨h, h1, h3⟩⟩

end StellarisSwap
